import Mathlib

/-! Shallow embedding of the in-memory multiplayer room engine of the
worldcup backend (src/index.js): the bracket-elimination state machine
(initBracket / nextMatch / advanceBracket / doReveal / worldcup:next),
the quiz flow (doQuizReveal, the quiz timer expiry, quiz:submit),
invite-code allocation, the room:join roster cap and idle-room teardown.

Modeling conventions, used throughout:
- JS Maps keyed by user id are association lists `List (Nat × _)` kept in
  insertion order; JS Sets are lists with membership-guarded insertion.
- JS objects used as score tables are total functions `Nat → Nat` with
  default 0 (every read in the source goes through the `|| 0` pattern).
- Math.random is an explicit draw stream `Nat → Nat` (each call reads the
  next index) or, for a single fair pick, a `Bool` coin parameter.
- setTimeout handles are booleans ("a timer is armed"); for the idle
  teardown claim a ghost counter of live scheduled callbacks is added.
- Candidates are identified by their numeric id; presentation-only fields
  (media payloads, round labels, percent strings, socket broadcasts and
  fire-and-forget DB writes) are omitted.
-/

namespace Engine

/-- A worldcup vote: candidate slot A or B of the current match. -/
inductive WChoice
  | A
  | B
deriving DecidableEq

/-- Worldcup room phases, as the strings used in src/index.js. -/
inductive WPhase
  | lobby
  | playing
  | revoting
  | revealed
  | finished
deriving DecidableEq

/-- A roster entry: display name plus the ephemeral per-round choice
(`p.choice` in the source; absent/deleted is `none`). -/
structure WPlayer where
  name : String
  choice : Option WChoice
deriving DecidableEq

/-- One entry of `room.picksHistory` as pushed by doReveal (the
presentation-only `match` media payload is omitted; `winningCandidate`
stores the winner's candidate id where the source stores its name). -/
structure PickRecord where
  roundIndex : Nat
  picks : List (Nat × Option WChoice)
  aCount : Nat
  bCount : Nat
  roundWinner : Option WChoice
  winningCandidate : Nat
deriving DecidableEq

/-- The worldcup-relevant state of a room object: bracket fields written
by initBracket/advanceBracket, the `_matchCands` pair set by nextMatch,
roster, commit set, tie-revote configuration and the timer fields. -/
structure Room where
  bracket : List Nat := []
  nextBracket : List Nat := []
  matchIndex : Nat := 0
  roundIndex : Nat := 0
  scores : Nat → Nat := fun _ => 0
  picksHistory : List PickRecord := []
  phase : WPhase := .lobby
  matchCands : Nat × Nat := (0, 0)
  champion : Option Nat := none
  totalMatches : Nat := 0
  revoteEnabled : Bool := true
  revoteCount : Nat := 0
  committed : List Nat := []
  players : List (Nat × WPlayer) := []
  timerEnabled : Bool := false
  timerSec : Nat := 45
  roundTimerArmed : Bool := false
  roundEndsAt : Option Nat := none
  emptyRoomTimer : Bool := false

/-- Swap the elements at positions i and j of a list (helper for the
Fisher–Yates loop; out-of-range indices leave the list unchanged). -/
def listSwap (l : List α) (i j : Nat) : List α :=
  match l.get? i, l.get? j with
  | some x, some y => (l.set i y).set j x
  | _, _ => l

/-- shuffleArray (src/index.js:3383): Fisher–Yates over a copy, with the
random draw for loop index i modeled as `rand i % (i + 1)`. -/
def shuffleArray (rand : Nat → Nat) (l : List α) : List α :=
  let n := l.length
  (List.range (n - 1)).foldl (fun acc k =>
    let i := n - 1 - k
    let j := rand i % (i + 1)
    listSwap acc i j) l

/-- initBracket (src/index.js:3392): shuffles the candidates, resets all
run state, sets totalMatches to candidates.length − 1 and defers one odd
contestant into nextBracket as a bye. The presentation-only
`currentMatch := null` write is omitted; `_matchCands` is untouched,
exactly as in the source. -/
def initBracket (room : Room) (candidates : List Nat) (rand : Nat → Nat) : Room :=
  let r := { room with
    bracket := shuffleArray rand candidates
    nextBracket := ([] : List Nat)
    matchIndex := 0
    roundIndex := 0
    scores := fun _ => 0
    picksHistory := ([] : List PickRecord)
    phase := WPhase.lobby
    champion := none
    totalMatches := candidates.length - 1 }
  if r.bracket.length % 2 ≠ 0 then
    { r with nextBracket := [r.bracket.getLastD 0], bracket := r.bracket.dropLast }
  else r

/-- nextMatch (src/index.js:3409): loads the current pair
`bracket[2·matchIndex], bracket[2·matchIndex+1]` into `_matchCands`
(the media payload `currentMatch` and the round label are
presentation-only and omitted). -/
def nextMatch (r : Room) : Room :=
  { r with matchCands :=
      (r.bracket.getD (2 * r.matchIndex) 0, r.bracket.getD (2 * r.matchIndex + 1) 0) }

/-- advanceBracket (src/index.js:3442): stage the winner, move the match
pointer, roll the staging list over into a new round when the round is
exhausted (again deferring a bye when odd), and report the champion when
at most one contestant remains. Returns the updated room and the
champion of the `finished` result (`none` when not finished). -/
def advanceBracket (r : Room) (winner : Nat) : Room × Option Nat :=
  let r1 := { r with nextBracket := r.nextBracket ++ [winner], matchIndex := r.matchIndex + 1 }
  let r2 : Room :=
    if r1.bracket.length ≤ r1.matchIndex * 2 then
      let rb := { r1 with bracket := r1.nextBracket, nextBracket := ([] : List Nat), matchIndex := 0 }
      if 1 < rb.bracket.length ∧ rb.bracket.length % 2 ≠ 0 then
        { rb with nextBracket := [rb.bracket.getLastD 0], bracket := rb.bracket.dropLast }
      else rb
    else r1
  if r2.bracket.length + r2.nextBracket.length ≤ 1 then
    (r2, some (r2.bracket.headD winner))
  else (r2, none)

/-- startRoundTimer (src/index.js:3460): cancel any pending round timer,
then arm a new one when the room has timers enabled. The wall-clock
deadline Date.now() + timerSec·1000 is abstracted to `some timerSec`. -/
def startRoundTimer (r : Room) : Room :=
  if ¬ r.timerEnabled then
    { r with roundTimerArmed := false, roundEndsAt := none }
  else
    { r with roundTimerArmed := true, roundEndsAt := some r.timerSec }

/-- The `picks` array of doReveal: every roster member with their current
choice. -/
def picksOf (players : List (Nat × WPlayer)) : List (Nat × Option WChoice) :=
  players.map (fun up => (up.1, up.2.choice))

/-- The `activePicks` of doReveal: players who actually chose A or B. -/
def activePicksOf (players : List (Nat × WPlayer)) : List (Nat × Option WChoice) :=
  (picksOf players).filter (fun x => x.2.isSome)

/-- doReveal's tally of A votes among players who chose. -/
def aCountOf (players : List (Nat × WPlayer)) : Nat :=
  ((activePicksOf players).filter (fun x => x.2 = some WChoice.A)).length

/-- doReveal's tally of B votes among players who chose. -/
def bCountOf (players : List (Nat × WPlayer)) : Nat :=
  ((activePicksOf players).filter (fun x => x.2 = some WChoice.B)).length

/-- doReveal's majority outcome: `some` side on a strict majority over
the active picks, `none` on a tie. -/
def roundWinnerOf (players : List (Nat × WPlayer)) : Option WChoice :=
  if bCountOf players < aCountOf players then some WChoice.A
  else if aCountOf players < bCountOf players then some WChoice.B
  else none

/-- The tie-revote branch of doReveal (src/index.js:3522): bump the
bounded revote counter, enter `revoting`, clear every player's choice
and the commit set, and re-arm the round timer when timers are enabled. -/
def revoteState (r : Room) : Room :=
  let r := { r with
    revoteCount := r.revoteCount + 1
    phase := WPhase.revoting
    players := r.players.map (fun up => (up.1, { up.2 with choice := none }))
    committed := ([] : List Nat) }
  if r.timerEnabled then startRoundTimer r else r

/-- The advance/record/crown tail of doReveal's concluding branch:
advance the bracket with the winner candidate, append the pick-history
record and set the champion when the advance reports completion. The
record `e` is built by the caller from fields advanceBracket does not
touch (roundIndex, the pre-reveal picks and tallies). -/
def recordAndCrown (r1 : Room) (e : PickRecord) (wcand : Nat) : Room :=
  let adv := advanceBracket r1 wcand
  let r2 := { adv.1 with picksHistory := adv.1.picksHistory ++ [e] }
  match adv.2 with
  | some c => { r2 with champion := some c }
  | none => r2

/-- The concluding tail of doReveal (src/index.js:3559): reset the revote
counter, award +1 to every player on the winning side, resolve the winner
candidate (the majority side, or the coin on an exhausted/disabled tie),
advance the bracket, append the pick-history record and set the champion
when the bracket reports completion. -/
def concludeState (r : Room) (coin : Bool) : Room :=
  let rw := roundWinnerOf r.players
  let r0 := { r with revoteCount := 0 }
  let r1 :=
    match rw with
    | some w =>
        let sc' : Nat → Nat := (activePicksOf r0.players).foldl
          (fun sc p => if p.2 = some w then Function.update sc p.1 (sc p.1 + 1) else sc)
          r0.scores
        { r0 with scores := sc' }
    | none => r0
  let winnerCand :=
    match rw with
    | some WChoice.A => r1.matchCands.1
    | some WChoice.B => r1.matchCands.2
    | none => if coin then r1.matchCands.1 else r1.matchCands.2
  recordAndCrown r1
    { roundIndex := r.roundIndex,
      picks := picksOf r.players,
      aCount := aCountOf r.players,
      bCount := bCountOf r.players,
      roundWinner := rw,
      winningCandidate := winnerCand }
    winnerCand

/-- The opening writes of doReveal once its phase guard passes: flip the
phase to `revealed` and clear the round timer. -/
def flipRevealed (r : Room) : Room :=
  { r with phase := WPhase.revealed, roundTimerArmed := false, roundEndsAt := none }

/-- doReveal (src/index.js:3494): guarded on phase `playing`/`revoting`,
flips the phase to `revealed` and clears the round timer first, then
either triggers a revote (tie, revoting enabled, fewer than 2 revotes
used) or concludes the match. The `coin` models the Math.random pick of
a winner on an exhausted or disabled tie. -/
def doReveal (r : Room) (coin : Bool) : Room :=
  if r.phase = WPhase.playing ∨ r.phase = WPhase.revoting then
    let r1 := flipRevealed r
    if roundWinnerOf r1.players = none ∧ r1.revoteEnabled ∧ r1.revoteCount < 2 then
      revoteState r1
    else
      concludeState r1 coin
  else r

/-- The state effect of the worldcup:next handler (src/index.js:4264):
host advance from `revealed`; finishes the run when a champion is set,
otherwise clears commits and choices, bumps the round index, computes
the next match and re-arms the round timer. -/
def worldcupNext (r : Room) : Room :=
  if r.phase ≠ WPhase.revealed then r
  else if r.champion.isSome then { r with phase := WPhase.finished }
  else
    startRoundTimer (nextMatch { r with
      committed := ([] : List Nat)
      players := r.players.map (fun up => (up.1, { up.2 with choice := none }))
      roundIndex := r.roundIndex + 1
      phase := WPhase.playing })

/-- The worldcup branch of the game:start handler after the content load
(src/index.js:4210): initBracket on the selected candidates, round 1,
phase `playing`, cleared commits/choices, zeroed scores, first match and
round timer. -/
def gameStart (room : Room) (cands : List Nat) (rand : Nat → Nat) : Room :=
  let r := initBracket room cands rand
  let r := { r with
    roundIndex := 1
    phase := WPhase.playing
    committed := ([] : List Nat)
    players := r.players.map (fun up => (up.1, { up.2 with choice := none }))
    scores := fun _ => 0 }
  startRoundTimer (nextMatch r)

/-- One observable match attempt of a worldcup run: every roster member's
current choice is set (some A/B, or `none` for an abstention, exactly the
states worldcup:commit and the round-timeout auto-assignment can
produce), the reveal fires with a coin for a possible random tie-break,
and the host advance runs (its phase guard makes it a no-op unless the
match concluded). -/
def wcStep (r : Room) (assign : Nat → Option WChoice) (coin : Bool) : Room :=
  let r1 :=
    if r.phase = WPhase.playing ∨ r.phase = WPhase.revoting then
      { r with
        players := r.players.map (fun up => (up.1, { up.2 with choice := assign up.1 }))
        committed := r.players.map (fun up => up.1) }
    else r
  worldcupNext (doReveal r1 coin)

/-- A worldcup run: a sequence of match attempts driven by per-step
choice assignments and tie-break coins. -/
def wcRun (r : Room) (script : List ((Nat → Option WChoice) × Bool)) : Room :=
  script.foldl (fun s e => wcStep s e.1 e.2) r

/-- The number of not-yet-eliminated contestants: the part of the current
round not yet played plus the staged next round. -/
def liveCount (r : Room) : Nat :=
  (r.bracket.length - 2 * r.matchIndex) + r.nextBracket.length

/-- Bracket well-formedness between matches: the current round is even in
size and the match pointer has a full pair left to play. -/
def BInv (r : Room) : Prop :=
  r.bracket.length % 2 = 0 ∧ 2 * r.matchIndex + 2 ≤ r.bracket.length

/-- Reachability invariant of a worldcup run after gameStart: while no
champion is set the bracket is well-formed, at least two contestants
remain and the recorded matches plus the remaining contestants account
for totalMatches + 1; once a champion is set, exactly totalMatches
matches are recorded. -/
def RunInv (r : Room) : Prop :=
  (r.champion = none →
    BInv r ∧ 2 ≤ liveCount r ∧
    r.picksHistory.length + liveCount r = r.totalMatches + 1 ∧
    (r.phase = WPhase.playing ∨ r.phase = WPhase.revoting ∨ r.phase = WPhase.revealed)) ∧
  (r.champion.isSome →
    r.picksHistory.length = r.totalMatches ∧
    (r.phase = WPhase.revealed ∨ r.phase = WPhase.finished))

/-! ### Quiz engine -/

/-- Quiz phases as the strings of src/index.js; `qshow` models "show"
(a Lean keyword). -/
inductive QPhase
  | qshow
  | answering
  | reveal
  | scoreboard
  | finished
deriving DecidableEq

/-- Quiz question types found in the source: multiple choice, free text
and the media-synchronized YouTube-audio type. -/
inductive QType
  | mcq
  | short
  | audio_youtube
deriving DecidableEq

/-- A submitted quiz answer value: a number (multiple-choice index) or a
free-text string, the two shapes the client sends. -/
inductive QAnswer
  | num (n : Int)
  | str (s : String)
deriving DecidableEq

/-- A quiz question row as loaded by loadQuizQuestions (src/index.js:3655);
`qtype` models the `type` field (a Lean keyword). The id/sortOrder columns
are presentation-only and omitted. -/
structure Question where
  qtype : QType
  prompt : String
  choices : List String
  answer : List QAnswer
  mediaType : Option String
  mediaUrl : Option String
  startSec : Nat
  durationSec : Nat
deriving DecidableEq

/-- The default used where the source reads `q.questions[q.questionIndex]`
with an index its callers keep in range (a JS out-of-range read would be
undefined). -/
def defaultQuestion : Question :=
  { qtype := QType.short, prompt := "", choices := [], answer := [],
    mediaType := none, mediaUrl := none, startSec := 0, durationSec := 10 }

/-- JS Number() coercion on the answer values this code compares, with
`none` playing NaN (which compares equal to nothing): numbers map to
themselves, strings parse as integers after trimming, the empty string
is 0, and a missing value is NaN. Fractional literals do not occur in
this domain (answers are choice indices). -/
def jsToNumber : QAnswer → Option Int
  | QAnswer.num n => some n
  | QAnswer.str s => if s.trim = "" then some 0 else s.trim.toInt?

/-- Equality of two JS numbers where `none` is NaN. -/
def numEq (a b : Option Int) : Bool :=
  match a, b with
  | some x, some y => x = y
  | _, _ => false

/-- The normalization of checkAnswer for free-text answers:
String(x).trim().toLowerCase().replace(whitespace, "") — lower-case and
strip all whitespace. -/
def normalizeAns (a : QAnswer) : String :=
  let s := match a with | QAnswer.num n => toString n | QAnswer.str s => s
  ((s.toLower.toList.filter (fun c => ¬ c.isWhitespace)).asString)

/-- checkAnswer (src/index.js:3698): null/undefined answers are wrong;
mcq compares Number(userAnswer) with Number(answer[0]); short and
audio_youtube compare the normalized answer against the synonym list. -/
def checkAnswer (q : Question) (userAnswer : Option QAnswer) : Bool :=
  match userAnswer with
  | none => false
  | some a =>
    match q.qtype with
    | QType.mcq =>
        numEq (jsToNumber a) (match q.answer.head? with | some x => jsToNumber x | none => none)
    | _ => q.answer.any (fun ans => normalizeAns ans = normalizeAns a)

/-- JS truthiness of an optional string field: present and non-empty. -/
def jsTruthy (o : Option String) : Bool :=
  match o with
  | some s => s ≠ ""
  | none => false

/-- Replace the first occurrence of `pat` in `s` with the empty string
(JS String.replace with a string pattern replaces only the first). -/
def replaceFirst (s pat : String) : String :=
  match s.splitOn pat with
  | [] => s
  | [x] => x
  | x :: rest => x ++ String.intercalate pat rest

/-- The pieces of a parsed URL that extractVideoId reads. -/
structure URLParts where
  hostname : String
  pathname : String
  query : List (String × String)
deriving DecidableEq

/-- Models the JS `new URL` constructor for the URL shapes this code
meets: scheme://host[:port][/path][?query]. A string without a scheme
separator makes `new URL` throw, modeled as `none`; the hostname is
lower-cased, the port is dropped, an absent path reads as "/". Percent
decoding of query values does not occur in this domain. -/
def parseURL (s : String) : Option URLParts :=
  match s.splitOn "://" with
  | scheme :: rest0 :: restMore =>
    if scheme = "" then none else
    let rest := String.intercalate "://" (rest0 :: restMore)
    let hostAndPort := (rest.toList.takeWhile (fun c => c ≠ '/' ∧ c ≠ '?')).asString
    let afterHost := (rest.toList.dropWhile (fun c => c ≠ '/' ∧ c ≠ '?')).asString
    let hostname := ((hostAndPort.toList.takeWhile (fun c => c ≠ ':')).asString).toLower
    let path0 := (afterHost.toList.takeWhile (fun c => c ≠ '?')).asString
    let pathname := if path0 = "" then "/" else path0
    let queryStr :=
      match afterHost.splitOn "?" with
      | _ :: q :: qs => String.intercalate "?" (q :: qs)
      | _ => ""
    let query := (queryStr.splitOn "&").filterMap (fun kv =>
      match kv.splitOn "=" with
      | [] => none
      | [k] => if k = "" then none else some (k, "")
      | k :: v :: vs => some (k, String.intercalate "=" (v :: vs)))
    some ⟨hostname, pathname, query⟩
  | _ => none

/-- The /shorts/ID, /embed/ID, /v/ID path scan of extractVideoId: the
first key found in the path segments with a following segment yields
that segment up to any '?'. -/
def ytKeyLookup (parts : List String) (key : String) : Option String :=
  match parts.findIdx? (fun p => p = key) with
  | none => none
  | some idx =>
    match parts.get? (idx + 1) with
    | none => none
    | some nxt => if nxt = "" then none else some ((nxt.splitOn "?").headD nxt)

/-- extractVideoId (src/index.js:3670): empty input is null; a bare
11-character video id is returned as-is; a string with no '/' and no '.'
is returned as-is (legacy); otherwise the URL is parsed and the id is
taken from a youtu.be path, the `v` query parameter, or a
shorts/embed/v path segment. -/
def extractVideoId (urlOrId : Option String) : Option String :=
  match urlOrId with
  | none => none
  | some raw =>
    if raw = "" then none else
    let s := raw.trim
    if s.length = 11 ∧ s.toList.all (fun c => c.isAlphanum ∨ c = '_' ∨ c = '-') then some s
    else if ¬ s.toList.contains '/' ∧ ¬ s.toList.contains '.' then some s
    else
      match parseURL s with
      | none => none
      | some url =>
        let host := replaceFirst (replaceFirst url.hostname "www.") "m."
        if host = "youtu.be" then
          match (url.pathname.splitOn "/").get? 1 with
          | some id => if id = "" then none else some id
          | none => none
        else
          let parts := (url.pathname.splitOn "/").filter (fun p => p ≠ "")
          match url.query.find? (fun kv => kv.1 = "v") with
          | some kv =>
              if kv.2 ≠ "" then some kv.2
              else (["shorts", "embed", "v"].findSome? (ytKeyLookup parts))
          | none => (["shorts", "embed", "v"].findSome? (ytKeyLookup parts))

/-- The sanitized question payload broadcast to clients. Fields absent
for a question type are `none`; the payload has no answer field at all,
mirroring safeQuestion, which never reads `q.answer`. -/
structure SafeQuestionPayload where
  index : Nat
  total : Nat
  qtype : QType
  prompt : String
  choices : Option (List String) := none
  mediaType : Option String := none
  videoId : Option String := none
  startSec : Option Nat := none
  durationSec : Option Nat := none
  media_type : Option String := none
  media_url : Option String := none
deriving DecidableEq

/-- safeQuestion (src/index.js:3714): index/total/type/prompt always;
choices only for mcq; for audio_youtube only the resolved video id plus
start/duration offsets; for other types with truthy media fields, the
raw media type and url. -/
def safeQuestion (q : Question) (index total : Nat) : SafeQuestionPayload :=
  let payload : SafeQuestionPayload :=
    { index := index, total := total, qtype := q.qtype, prompt := q.prompt }
  let payload := if q.qtype = QType.mcq then { payload with choices := some q.choices } else payload
  let payload :=
    if q.qtype = QType.audio_youtube then
      { payload with
        mediaType := some "youtube"
        videoId := extractVideoId q.mediaUrl
        startSec := some q.startSec
        durationSec := some q.durationSec }
    else payload
  if q.qtype ≠ QType.audio_youtube ∧ jsTruthy q.mediaUrl ∧ jsTruthy q.mediaType then
    { payload with media_type := q.mediaType, media_url := q.mediaUrl }
  else payload

/-- One entry of the per-question answers map: `{submitted, answer,
isCorrect}` as stored by quiz:submit and the timer expiry. -/
structure AnswerEntry where
  submitted : Bool
  answer : Option QAnswer
  isCorrect : Bool
deriving DecidableEq

/-- One row of the reveal `results` array of doQuizReveal. -/
structure QResult where
  userId : Nat
  name : String
  answer : Option QAnswer
  isCorrect : Bool
  submitted : Bool
deriving DecidableEq

/-- The reveal payload retained as `q.lastReveal` (presentation-only
fields — prompt echo, per-choice stats, the rendered correct-answer
string and the score list — are omitted; `correctAnswerRaw` is the raw
answer array the source also sends). -/
structure QuizRevealPayload where
  questionIndex : Nat
  correctAnswerRaw : List QAnswer
  results : List QResult
  isLastQuestion : Bool
deriving DecidableEq

/-- The quiz sub-state `room.quiz` as built by initQuizState
(src/index.js:3738); `lastScoreboard` and the youtube sync payload are
presentation-only and omitted. -/
structure QuizState where
  questions : List Question := []
  questionIndex : Nat := 0
  phase : QPhase := QPhase.qshow
  answers : List (Nat × AnswerEntry) := []
  scores : Nat → Nat := fun _ => 0
  readyPlayers : List Nat := []
  lastReveal : Option QuizRevealPayload := none

/-- The quiz-relevant projection of a room: roster (id and name), the
shared answer timer and the quiz sub-state. -/
structure QuizRoom where
  players : List (Nat × String) := []
  timerEnabled : Bool := true
  timerSec : Nat := 45
  quizTimerArmed : Bool := false
  roundEndsAt : Option Nat := none
  quiz : QuizState := {}

/-- Write `isCorrect := b` into the stored entry of user `k`, when one is
present (the JS loop mutates the entry object held by the Map; default
entries for absent users are never inserted). -/
def setCorrect (ans : List (Nat × AnswerEntry)) (k : Nat) (b : Bool) : List (Nat × AnswerEntry) :=
  ans.map (fun p => if p.1 = k then (p.1, { p.2 with isCorrect := b }) else p)

/-- The threaded state of the doQuizReveal grading loop. -/
structure GradeSt where
  answers : List (Nat × AnswerEntry)
  scores : Nat → Nat
  results : List QResult

/-- One iteration of the doQuizReveal grading loop over the roster:
look up the entry (default: unsubmitted), grade submitted non-null
answers, store the verdict, bump the score on a correct answer and
append the result row. -/
def gradeStep (question : Question) (st : GradeSt) (up : Nat × String) : GradeSt :=
  let entry := (List.lookup up.1 st.answers).getD ⟨false, none, false⟩
  let graded :=
    if entry.submitted ∧ entry.answer.isSome then checkAnswer question entry.answer else false
  { answers := setCorrect st.answers up.1 graded
    scores := if graded then Function.update st.scores up.1 (st.scores up.1 + 1) else st.scores
    results := st.results ++ [⟨up.1, up.2, entry.answer, graded, entry.submitted⟩] }

/-- doQuizReveal (src/index.js:3835): guarded on phase `answering`, flips
the phase to `reveal` and clears the shared timer first, then grades
every roster member, updates the scores and retains the reveal snapshot. -/
def doQuizReveal (r : QuizRoom) : QuizRoom :=
  if r.quiz.phase ≠ QPhase.answering then r
  else
    let r := { r with quiz := { r.quiz with phase := QPhase.reveal },
                      quizTimerArmed := false, roundEndsAt := none }
    let question := r.quiz.questions.getD r.quiz.questionIndex defaultQuestion
    let st := r.players.foldl (gradeStep question) ⟨r.quiz.answers, r.quiz.scores, []⟩
    let payload : QuizRevealPayload :=
      { questionIndex := r.quiz.questionIndex
        correctAnswerRaw := question.answer
        results := st.results
        isLastQuestion := r.quiz.questions.length - 1 ≤ r.quiz.questionIndex }
    { r with quiz := { r.quiz with answers := st.answers, scores := st.scores,
                                   lastReveal := some payload } }

/-- The auto-pass loop of startQuizTimer's expiry callback: every roster
member without a stored answer gets `{submitted: true, answer: null,
isCorrect: false}`. -/
def fillAbsent (ps : List (Nat × String)) (ans : List (Nat × AnswerEntry)) :
    List (Nat × AnswerEntry) :=
  ps.foldl (fun acc up =>
    if (List.lookup up.1 acc).isSome then acc
    else acc ++ [(up.1, ⟨true, none, false⟩)]) ans

/-- The expiry callback of startQuizTimer (src/index.js:3820): clear the
timer fields, auto-pass every roster member without a stored answer,
then reveal. -/
def quizTimerFire (r : QuizRoom) : QuizRoom :=
  doQuizReveal { r with
    quizTimerArmed := false
    roundEndsAt := none
    quiz := { r.quiz with answers := fillAbsent r.players r.quiz.answers } }

/-- Synchronous results of the quiz:submit handler. -/
inductive SubmitResult
  | ok
  | notAnswering
  | notInRoom
  | alreadySubmitted
deriving DecidableEq

/-- The quiz:submit handler (src/index.js:4400): rejected outside phase
`answering` and for non-roster users; a repeat submission returns
ALREADY_SUBMITTED untouched; otherwise the answer is stored once and a
full-roster submission triggers the immediate reveal. -/
def quizSubmit (r : QuizRoom) (u : Nat) (a : Option QAnswer) : SubmitResult × QuizRoom :=
  if r.quiz.phase ≠ QPhase.answering then (SubmitResult.notAnswering, r)
  else if ¬ (r.players.map (fun p => p.1)).contains u then (SubmitResult.notInRoom, r)
  else if (List.lookup u r.quiz.answers).isSome then (SubmitResult.alreadySubmitted, r)
  else
    let r1 := { r with quiz := { r.quiz with
                 answers := r.quiz.answers ++ [(u, ⟨true, a, false⟩)] } }
    let r2 := if r1.players.length ≤ r1.quiz.answers.length then doQuizReveal r1 else r1
    (SubmitResult.ok, r2)

/-! ### Invite-code allocation, idle teardown, roster cap -/

/-- An invite code: its digit width (6, or 7 for the fallback) paired
with its numeric value — two zero-padded code strings are equal exactly
when both components agree. -/
abbrev InviteCode := Nat × Nat

/-- generateInviteCode (src/index.js:3035): up to 50 six-digit draws are
checked against the invite-code map; after 50 collisions a seven-digit
fallback is drawn without any check. `rand i` models the i-th
Math.random draw scaled to an integer. -/
def generateInviteCode (rand : Nat → Nat) (usedCodes : List InviteCode) : InviteCode :=
  match (List.range 50).findSome? (fun attempt =>
      let code : InviteCode := (6, rand attempt % 1000000)
      if code ∈ usedCodes then none else some code) with
  | some c => c
  | none => (7, rand 50 % 10000000)

/-- The idle-teardown-relevant projection of a room: roster size, pending
disconnections, whether `room.emptyRoomTimer` holds a handle, and a ghost
count of actually-scheduled teardown callbacks (each setTimeout adds one,
each clearTimeout of the held handle or callback run removes one). -/
structure IdleRoom where
  playersCount : Nat
  disconnectedCount : Nat
  emptyRoomTimer : Bool
  liveIdleTimers : Nat
deriving DecidableEq

/-- maybeCleanupRoom (src/index.js:3115): with anyone present or pending,
any held idle timer is cancelled; on an empty room an already-held timer
is kept as-is (no duplicate), otherwise one teardown callback is
scheduled. -/
def maybeCleanupRoom (r : IdleRoom) : IdleRoom :=
  if 0 < r.playersCount ∨ 0 < r.disconnectedCount then
    if r.emptyRoomTimer then
      { r with emptyRoomTimer := false, liveIdleTimers := r.liveIdleTimers - 1 }
    else r
  else if r.emptyRoomTimer then r
  else { r with emptyRoomTimer := true, liveIdleTimers := r.liveIdleTimers + 1 }

/-- The idle-teardown callback (src/index.js:3130): drops its handle,
re-checks that the room is still empty, and only then deletes the room
(the Bool reports whether deleteRoom ran). -/
def idleTimerFire (r : IdleRoom) : IdleRoom × Bool :=
  let r := { r with emptyRoomTimer := false, liveIdleTimers := r.liveIdleTimers - 1 }
  if r.playersCount = 0 ∧ r.disconnectedCount = 0 then (r, true) else (r, false)

/-- The per-room idle-timer invariant: the ghost count of scheduled
teardown callbacks is 1 exactly when the room holds a handle. -/
def IdleInv (r : IdleRoom) : Prop :=
  r.liveIdleTimers = if r.emptyRoomTimer then 1 else 0

/-- MAX_PLAYERS (src/index.js:3031). -/
def MAX_PLAYERS : Nat := 4

/-- pickNick (src/index.js:3049) restricted to the payload nickname: the
provided name if truthy, trimmed to 20 characters, else "player". -/
def pickNick (nick : Option String) : String :=
  let raw := match nick with
    | some s => if s = "" then "player" else s
    | none => "player"
  let t := (raw.trim).take 20
  if t = "" then "player" else t

/-- Synchronous results of the room:join handler once the room is
resolved (ROOM_NOT_FOUND is registry-level and out of scope here). -/
inductive JoinResult
  | ok
  | roomFull
deriving DecidableEq

/-- The room:join handler on a resolved room (src/index.js:4066): cancel
a pending idle timer; a user already in the roster rejoins (renamed when
a truthy nickname accompanies the join), while a new user is rejected
with ROOM_FULL at the MAX_PLAYERS cap and appended below it. The
quiz-score backfill and socket bookkeeping are on other projections of
the room and omitted. -/
def roomJoin (r : Room) (u : Nat) (nick : Option String) : JoinResult × Room :=
  let r := { r with emptyRoomTimer := false }
  match List.lookup u r.players with
  | some p =>
      let newName :=
        match nick with
        | some s => if s ≠ "" ∧ s.trim ≠ "" then (s.trim).take 20 else p.name
        | none => p.name
      (JoinResult.ok,
        { r with players := r.players.map (fun q =>
            if q.1 = u then (q.1, { q.2 with name := newName }) else q) })
  | none =>
      if MAX_PLAYERS ≤ r.players.length then (JoinResult.roomFull, r)
      else (JoinResult.ok, { r with players := r.players ++ [(u, ⟨pickNick nick, none⟩)] })

/-! ### Concrete instances used to instantiate the theorems -/

/-- A one-player room, before game start. -/
def sampleRoom : Room :=
  { players := [(1, ⟨"host", none⟩)] }

/-- The sample room started on three candidates with a constant draw
stream. -/
def sampleStart : Room :=
  gameStart sampleRoom [10, 20, 30] (fun _ => 0)

/-- A two-match script of unanimous A picks. -/
def sampleScript : List ((Nat → Option WChoice) × Bool) :=
  [(fun _ => some WChoice.A, true), (fun _ => some WChoice.A, true)]

/-- A four-candidate room about to reveal its first match, with the two
players split A/B (a tie), revoting enabled and unused. -/
def tieRoom : Room :=
  { phase := WPhase.playing, bracket := [10, 20, 30, 40], nextBracket := [],
    matchIndex := 0, matchCands := (10, 20), revoteEnabled := true, revoteCount := 0,
    timerEnabled := true,
    players := [(1, ⟨"a", some WChoice.A⟩), (2, ⟨"b", some WChoice.B⟩)],
    committed := [1, 2] }

/-- The same tied room with the revote budget already exhausted. -/
def tieRoomExhausted : Room :=
  { tieRoom with revoteCount := 2 }

/-- A mid-round bracket state: four contestants, first match about to be
advanced. -/
def advRoom : Room :=
  { bracket := [10, 20, 30, 40] }

/-- A room sitting in the `revealed` phase (reveal already executed). -/
def revealedRoom : Room :=
  { tieRoom with phase := WPhase.revealed }

/-- A three-choice multiple-choice question. -/
def sampleQuestion : Question :=
  { qtype := QType.mcq, prompt := "q", choices := ["a", "b", "c"],
    answer := [QAnswer.num 1], mediaType := none, mediaUrl := none,
    startSec := 0, durationSec := 10 }

/-- A one-player quiz room in the answering phase with no submissions:
the shape the shared timer expires on when a player times out. -/
def timeoutQuizRoom : QuizRoom :=
  { players := [(1, "p")],
    quiz := { questions := [sampleQuestion], phase := QPhase.answering } }

/-- A two-player quiz room in the answering phase with no submissions. -/
def answeringQuizRoom : QuizRoom :=
  { players := [(1, "p"), (2, "q")],
    quiz := { questions := [sampleQuestion], phase := QPhase.answering } }

/-- A quiz room between questions (not answering). -/
def idleQuizRoom : QuizRoom :=
  { players := [(1, "p")],
    quiz := { questions := [sampleQuestion], phase := QPhase.scoreboard } }

/-- An authored audio question whose answer differs from
sampleAudioQuestion2 only. -/
def sampleAudioQuestion : Question :=
  { qtype := QType.audio_youtube, prompt := "guess", choices := [],
    answer := [QAnswer.str "song"], mediaType := some "youtube",
    mediaUrl := some "https://youtu.be/abcdefghijk", startSec := 7, durationSec := 12 }

/-- An empty room holding a live idle-teardown timer. -/
def emptyIdleRoom : IdleRoom :=
  { playersCount := 0, disconnectedCount := 0, emptyRoomTimer := true, liveIdleTimers := 1 }

/-- A room that regained a player while its idle timer was pending. -/
def regainedIdleRoom : IdleRoom :=
  { playersCount := 1, disconnectedCount := 0, emptyRoomTimer := true, liveIdleTimers := 1 }

/-- A full four-player room (at the MAX_PLAYERS cap). -/
def fullRoom : Room :=
  { players := [(1, ⟨"a", none⟩), (2, ⟨"b", none⟩), (3, ⟨"c", none⟩), (4, ⟨"d", none⟩)] }

/-! ### Helper lemmas: lengths and bracket arithmetic -/

theorem listSwap_length (l : List α) (i j : Nat) : (listSwap l i j).length = l.length := by
  unfold listSwap
  cases h1 : l.get? i <;> cases h2 : l.get? j <;> simp

theorem foldl_listSwap_length (f g : Nat → Nat) (ks : List Nat) (acc : List α) :
    (ks.foldl (fun a k => listSwap a (f k) (g k)) acc).length = acc.length := by
  induction ks generalizing acc with
  | nil => rfl
  | cons k ks ih => simp [List.foldl_cons, ih, listSwap_length]

theorem shuffleArray_length (rand : Nat → Nat) (l : List α) :
    (shuffleArray rand l).length = l.length := by
  simpa [shuffleArray] using
    foldl_listSwap_length (fun k => l.length - 1 - k)
      (fun k => rand (l.length - 1 - k) % (l.length - 1 - k + 1))
      (List.range (l.length - 1)) l

theorem advanceBracket_frame (r : Room) (w : Nat) :
    (advanceBracket r w).1.picksHistory = r.picksHistory ∧
    (advanceBracket r w).1.totalMatches = r.totalMatches ∧
    (advanceBracket r w).1.phase = r.phase ∧
    (advanceBracket r w).1.champion = r.champion ∧
    (advanceBracket r w).1.players = r.players ∧
    (advanceBracket r w).1.roundIndex = r.roundIndex ∧
    (advanceBracket r w).1.scores = r.scores ∧
    (advanceBracket r w).1.committed = r.committed ∧
    (advanceBracket r w).1.revoteCount = r.revoteCount ∧
    (advanceBracket r w).1.revoteEnabled = r.revoteEnabled ∧
    (advanceBracket r w).1.matchCands = r.matchCands ∧
    (advanceBracket r w).1.timerEnabled = r.timerEnabled := by
  simp only [advanceBracket]
  split_ifs <;> simp

theorem advanceBracket_liveCount (r : Room) (w : Nat)
    (hev : r.bracket.length % 2 = 0) (hmi : 2 * r.matchIndex + 2 ≤ r.bracket.length) :
    liveCount (advanceBracket r w).1 = liveCount r - 1 ∧
    ((advanceBracket r w).2.isSome ↔ liveCount r = 2) ∧
    ((advanceBracket r w).2 = none → BInv (advanceBracket r w).1) := by
  simp only [advanceBracket, liveCount, BInv]
  split_ifs <;> simp_all [← List.length_pos] <;> omega

theorem recordAndCrown_facts (r1 : Room) (e : PickRecord) (wcand : Nat)
    (hev : r1.bracket.length % 2 = 0) (hmi : 2 * r1.matchIndex + 2 ≤ r1.bracket.length) :
    (recordAndCrown r1 e wcand).picksHistory.length = r1.picksHistory.length + 1 ∧
    (recordAndCrown r1 e wcand).totalMatches = r1.totalMatches ∧
    (recordAndCrown r1 e wcand).phase = r1.phase ∧
    (recordAndCrown r1 e wcand).players = r1.players ∧
    liveCount (recordAndCrown r1 e wcand) = liveCount r1 - 1 ∧
    (liveCount r1 = 2 → (recordAndCrown r1 e wcand).champion.isSome) ∧
    (2 < liveCount r1 → (recordAndCrown r1 e wcand).champion = r1.champion ∧
      BInv (recordAndCrown r1 e wcand)) := by
  obtain ⟨f1, f2, f3, f4, f5, f6, f7, f8, f9, f10, f11, f12⟩ := advanceBracket_frame r1 wcand
  obtain ⟨l1, l2, l3⟩ := advanceBracket_liveCount r1 wcand hev hmi
  simp only [recordAndCrown]
  rcases hadv : advanceBracket r1 wcand with ⟨r', ch⟩
  rw [hadv] at f1 f2 f3 f4 f5 l1 l2 l3
  simp only at f1 f2 f3 f4 f5 l1 l2 l3
  cases ch with
  | some c =>
      simp only [Option.isSome_some, true_iff] at l2
      refine ⟨by simp [f1], by simp [f2], by simp [f3], by simp [f5],
        by simpa [liveCount] using l1, fun _ => by simp,
        fun h2 => absurd l2 (by omega)⟩
  | none =>
      simp only [Option.isSome_none, Bool.false_eq_true, false_iff] at l2
      have hBI : BInv r' := l3 rfl
      refine ⟨by simp [f1], by simp [f2], by simp [f3], by simp [f5],
        by simpa [liveCount] using l1, fun h2 => absurd h2 l2,
        fun _ => ⟨by simp [f4], ?_⟩⟩
      simpa [BInv] using hBI

theorem concludeState_facts (r : Room) (coin : Bool)
    (hev : r.bracket.length % 2 = 0) (hmi : 2 * r.matchIndex + 2 ≤ r.bracket.length) :
    (concludeState r coin).picksHistory.length = r.picksHistory.length + 1 ∧
    (concludeState r coin).totalMatches = r.totalMatches ∧
    (concludeState r coin).phase = r.phase ∧
    (concludeState r coin).players = r.players ∧
    liveCount (concludeState r coin) = liveCount r - 1 ∧
    (liveCount r = 2 → (concludeState r coin).champion.isSome) ∧
    (2 < liveCount r → (concludeState r coin).champion = r.champion ∧
      BInv (concludeState r coin)) := by
  simp only [concludeState]
  cases hrw : roundWinnerOf r.players with
  | none => exact recordAndCrown_facts { r with revoteCount := 0 } _ _ hev hmi
  | some w =>
      cases w <;> exact recordAndCrown_facts _ _ _ hev hmi

theorem revoteState_spec (r : Room) :
    (revoteState r).phase = WPhase.revoting ∧
    (revoteState r).bracket = r.bracket ∧
    (revoteState r).nextBracket = r.nextBracket ∧
    (revoteState r).matchIndex = r.matchIndex ∧
    (revoteState r).picksHistory = r.picksHistory ∧
    (revoteState r).champion = r.champion ∧
    (revoteState r).totalMatches = r.totalMatches ∧
    (revoteState r).revoteCount = r.revoteCount + 1 ∧
    (revoteState r).committed = [] ∧
    (revoteState r).players = r.players.map (fun up => (up.1, { up.2 with choice := none })) ∧
    (r.timerEnabled = true → (revoteState r).roundTimerArmed = true) := by
  simp only [revoteState, startRoundTimer]
  split_ifs <;> simp_all

theorem doReveal_noop (r : Room) (coin : Bool)
    (h : ¬(r.phase = WPhase.playing ∨ r.phase = WPhase.revoting)) : doReveal r coin = r := by
  simp only [doReveal, if_neg h]

theorem doReveal_revote_eq (r : Room) (coin : Bool)
    (hph : r.phase = WPhase.playing ∨ r.phase = WPhase.revoting)
    (htie : roundWinnerOf r.players = none)
    (hen : r.revoteEnabled = true) (hcnt : r.revoteCount < 2) :
    doReveal r coin = revoteState (flipRevealed r) := by
  simp only [doReveal, if_pos hph]
  rw [if_pos]
  exact ⟨htie, by simp [flipRevealed, hen], hcnt⟩

theorem doReveal_conclude_eq (r : Room) (coin : Bool)
    (hph : r.phase = WPhase.playing ∨ r.phase = WPhase.revoting)
    (hcase : ¬(roundWinnerOf r.players = none ∧ r.revoteEnabled = true ∧ r.revoteCount < 2)) :
    doReveal r coin = concludeState (flipRevealed r) coin := by
  simp only [doReveal, if_pos hph]
  rw [if_neg]
  intro hc
  exact hcase ⟨hc.1, by simpa [flipRevealed] using hc.2.1, hc.2.2⟩

theorem worldcupNext_noop (r : Room) (h : r.phase ≠ WPhase.revealed) : worldcupNext r = r := by
  simp only [worldcupNext, if_pos h]

theorem worldcupNext_finish (r : Room) (hph : r.phase = WPhase.revealed)
    (hch : r.champion.isSome) : worldcupNext r = { r with phase := WPhase.finished } := by
  simp only [worldcupNext, hph]
  simp [hch]

theorem worldcupNext_advance (r : Room) (hph : r.phase = WPhase.revealed)
    (hch : r.champion = none) :
    (worldcupNext r).phase = WPhase.playing ∧
    (worldcupNext r).bracket = r.bracket ∧
    (worldcupNext r).nextBracket = r.nextBracket ∧
    (worldcupNext r).matchIndex = r.matchIndex ∧
    (worldcupNext r).picksHistory = r.picksHistory ∧
    (worldcupNext r).champion = none ∧
    (worldcupNext r).totalMatches = r.totalMatches := by
  simp only [worldcupNext, nextMatch, startRoundTimer, hph, hch]
  split_ifs <;> simp_all

theorem revoteFlip_spec (r1 : Room) :
    (revoteState (flipRevealed r1)).phase = WPhase.revoting ∧
    (revoteState (flipRevealed r1)).bracket = r1.bracket ∧
    (revoteState (flipRevealed r1)).nextBracket = r1.nextBracket ∧
    (revoteState (flipRevealed r1)).matchIndex = r1.matchIndex ∧
    (revoteState (flipRevealed r1)).picksHistory = r1.picksHistory ∧
    (revoteState (flipRevealed r1)).champion = r1.champion ∧
    (revoteState (flipRevealed r1)).totalMatches = r1.totalMatches := by
  obtain ⟨s1, s2, s3, s4, s5, s6, s7, s8, s9, s10, s11⟩ := revoteState_spec (flipRevealed r1)
  exact ⟨s1, s2, s3, s4, s5, s6, s7⟩

theorem concludeFlip_facts (r1 : Room) (coin : Bool)
    (hev : r1.bracket.length % 2 = 0) (hmi : 2 * r1.matchIndex + 2 ≤ r1.bracket.length) :
    (concludeState (flipRevealed r1) coin).picksHistory.length =
      r1.picksHistory.length + 1 ∧
    (concludeState (flipRevealed r1) coin).totalMatches = r1.totalMatches ∧
    (concludeState (flipRevealed r1) coin).phase = WPhase.revealed ∧
    liveCount (concludeState (flipRevealed r1) coin) = liveCount r1 - 1 ∧
    (liveCount r1 = 2 → (concludeState (flipRevealed r1) coin).champion.isSome) ∧
    (2 < liveCount r1 → (concludeState (flipRevealed r1) coin).champion = r1.champion ∧
      BInv (concludeState (flipRevealed r1) coin)) := by
  obtain ⟨c1, c2, c3, c4, c5, c6, c7⟩ := concludeState_facts (flipRevealed r1) coin hev hmi
  exact ⟨c1, c2, c3, c5, c6, c7⟩

theorem reveal_then_next_RunInv (r1 : Room) (coin : Bool)
    (hpr : r1.phase = WPhase.playing ∨ r1.phase = WPhase.revoting)
    (hch : r1.champion = none) (hBI : BInv r1) (hlive : 2 ≤ liveCount r1)
    (hcount : r1.picksHistory.length + liveCount r1 = r1.totalMatches + 1) :
    RunInv (worldcupNext (doReveal r1 coin)) ∧
    (worldcupNext (doReveal r1 coin)).totalMatches = r1.totalMatches := by
  by_cases htr : roundWinnerOf r1.players = none ∧ r1.revoteEnabled = true ∧ r1.revoteCount < 2
  · -- tie with revotes remaining: revote pause, bracket untouched
    rw [doReveal_revote_eq r1 coin hpr htr.1 htr.2.1 htr.2.2]
    obtain ⟨s1, s2, s3, s4, s5, s6, s7⟩ := revoteFlip_spec r1
    rw [worldcupNext_noop _ (by rw [s1]; decide)]
    refine ⟨⟨fun _ => ⟨?_, ?_, ?_, ?_⟩, fun hs => ?_⟩, s7⟩
    · exact ⟨by rw [s2]; exact hBI.1, by simp only [BInv] at hBI ⊢; rw [s2, s4]; exact hBI.2⟩
    · simpa only [liveCount, s2, s3, s4] using hlive
    · simp only [liveCount]
      rw [s2, s3, s4, s5, s7]
      simpa only [liveCount] using hcount
    · rw [s1]; exact Or.inr (Or.inl rfl)
    · rw [s6, hch] at hs; simp at hs
  · -- match concludes: one more record, one fewer contestant
    rw [doReveal_conclude_eq r1 coin hpr htr]
    obtain ⟨c1, c2, c3, c5, c6, c7⟩ := concludeFlip_facts r1 coin hBI.1 hBI.2
    by_cases hl2 : liveCount r1 = 2
    · -- final match: champion crowned, host advance finishes the run
      have hdone := c6 hl2
      rw [worldcupNext_finish _ c3 hdone]
      refine ⟨⟨fun h0 => ?_, fun _ => ⟨?_, ?_⟩⟩, by simpa using c2⟩
      · dsimp only at h0
        rw [h0] at hdone
        simp at hdone
      · dsimp only
        rw [c1, c2]
        omega
      · simp
    · -- mid-run match: bracket invariant and the count both step down by one
      obtain ⟨cc, cBI⟩ := c7 (by omega)
      have hchc : (concludeState (flipRevealed r1) coin).champion = none := cc.trans hch
      obtain ⟨w1, w2, w3, w4, w5, w6, w7⟩ := worldcupNext_advance _ c3 hchc
      refine ⟨⟨fun _ => ⟨?_, ?_, ?_, ?_⟩, fun hs => ?_⟩, by rw [w7, c2]⟩
      · exact ⟨by rw [w2]; exact cBI.1, by simp only [BInv] at cBI ⊢; rw [w2, w4]; exact cBI.2⟩
      · simp only [liveCount] at c5 ⊢
        rw [w2, w3, w4]
        simp only [liveCount] at hl2 hlive
        omega
      · simp only [liveCount] at c5 ⊢
        rw [w2, w3, w4, w5, w7, c1, c2]
        simp only [liveCount] at hcount hl2 hlive
        omega
      · rw [w1]; exact Or.inl rfl
      · rw [w6] at hs; simp at hs

theorem wcStep_RunInv (r : Room) (assign : Nat → Option WChoice) (coin : Bool)
    (h : RunInv r) :
    RunInv (wcStep r assign coin) ∧ (wcStep r assign coin).totalMatches = r.totalMatches := by
  obtain ⟨hnone, hsome⟩ := h
  by_cases hch : r.champion = none
  · obtain ⟨hBI, hlive, hcount, hph⟩ := hnone hch
    have hsplit : (r.phase = WPhase.playing ∨ r.phase = WPhase.revoting) ∨
        r.phase = WPhase.revealed := by tauto
    rcases hsplit with hpr | hrev
    · simp only [wcStep, if_pos hpr]
      exact reveal_then_next_RunInv _ coin hpr hch hBI hlive hcount
    · -- stale trigger in `revealed`: reveal is a no-op, the host advance runs
      have hguard : ¬(r.phase = WPhase.playing ∨ r.phase = WPhase.revoting) := by
        simp [hrev]
      simp only [wcStep, if_neg hguard]
      rw [doReveal_noop r coin hguard]
      obtain ⟨w1, w2, w3, w4, w5, w6, w7⟩ := worldcupNext_advance r hrev hch
      refine ⟨⟨fun _ => ⟨?_, ?_, ?_, ?_⟩, fun hs => ?_⟩, w7⟩
      · exact ⟨by rw [w2]; exact hBI.1, by simp only [BInv] at hBI ⊢; rw [w2, w4]; exact hBI.2⟩
      · simpa only [liveCount, w2, w3, w4] using hlive
      · simp only [liveCount]
        rw [w2, w3, w4, w5, w7]
        simpa only [liveCount] using hcount
      · rw [w1]; exact Or.inl rfl
      · rw [w6] at hs; simp at hs
  · -- champion already set: the run is frozen apart from finishing
    have hcs : r.champion.isSome := Option.ne_none_iff_isSome.mp hch
    obtain ⟨hlen, hphase⟩ := hsome hcs
    have hguard : ¬(r.phase = WPhase.playing ∨ r.phase = WPhase.revoting) := by
      rcases hphase with h1 | h1 <;> simp [h1]
    simp only [wcStep, if_neg hguard]
    rw [doReveal_noop r coin hguard]
    rcases hphase with h1 | h1
    · rw [worldcupNext_finish r h1 hcs]
      refine ⟨⟨fun h0 => ?_, fun _ => ⟨by simpa using hlen, by simp⟩⟩, by simp⟩
      dsimp only at h0
      rw [h0] at hcs
      simp at hcs
    · rw [worldcupNext_noop r (by simp [h1])]
      exact ⟨⟨fun h0 => absurd h0 hch, fun _ => ⟨hlen, Or.inr h1⟩⟩, rfl⟩

theorem wcRun_RunInv (script : List ((Nat → Option WChoice) × Bool)) (r : Room)
    (h : RunInv r) :
    RunInv (wcRun r script) ∧ (wcRun r script).totalMatches = r.totalMatches := by
  induction script generalizing r with
  | nil => exact ⟨h, rfl⟩
  | cons e es ih =>
      obtain ⟨h1, h2⟩ := wcStep_RunInv r e.1 e.2 h
      obtain ⟨g1, g2⟩ := ih _ h1
      refine ⟨by simpa [wcRun] using g1, ?_⟩
      simp only [wcRun] at g2 ⊢
      rw [List.foldl_cons]
      exact g2.trans h2

theorem RunInv_of_fields (r : Room)
    (hch : r.champion = none) (hph : r.phase = WPhase.playing)
    (hev : r.bracket.length % 2 = 0) (hmi : 2 * r.matchIndex + 2 ≤ r.bracket.length)
    (hcount : r.picksHistory.length + liveCount r = r.totalMatches + 1) :
    RunInv r := by
  constructor
  · intro _
    refine ⟨⟨hev, hmi⟩, ?_, hcount, Or.inl hph⟩
    simp only [liveCount]
    omega
  · intro hs
    rw [hch] at hs
    simp at hs

theorem gameStart_facts (room : Room) (cands : List Nat) (rand : Nat → Nat)
    (hN : 2 ≤ cands.length) :
    RunInv (gameStart room cands rand) ∧
    (gameStart room cands rand).totalMatches = cands.length - 1 := by
  have hlen := shuffleArray_length rand cands
  simp only [gameStart, initBracket, nextMatch, startRoundTimer]
  split_ifs <;>
    · refine ⟨RunInv_of_fields _ ?_ ?_ ?_ ?_ ?_, ?_⟩ <;>
        simp_all [liveCount, List.length_dropLast] <;> omega

/-- C1: for every candidate count N ≥ 2 the bracket is initialized with
totalMatches = N − 1, and any worldcup run over it that reaches a
champion — whatever the per-match choice assignments, timeouts, ties,
revotes and tie-break coins were — has recorded exactly N − 1 matches in
the pick history, carries totalMatches = N − 1, and has exactly one
champion. -/
theorem worldcup_run_match_count (room : Room) (cands : List Nat)
    (rand : Nat → Nat) (script : List ((Nat → Option WChoice) × Bool))
    (hN : 2 ≤ cands.length)
    (hdone : (wcRun (gameStart room cands rand) script).champion.isSome) :
    (gameStart room cands rand).totalMatches = cands.length - 1 ∧
    (wcRun (gameStart room cands rand) script).picksHistory.length = cands.length - 1 ∧
    (wcRun (gameStart room cands rand) script).totalMatches = cands.length - 1 ∧
    ∃ ch, (wcRun (gameStart room cands rand) script).champion = some ch := by
  obtain ⟨hInv, htm⟩ := gameStart_facts room cands rand hN
  obtain ⟨gInv, gtm⟩ := wcRun_RunInv script _ hInv
  obtain ⟨glen, -⟩ := gInv.2 hdone
  refine ⟨htm, ?_, gtm.trans htm, Option.isSome_iff_exists.mp hdone⟩
  rw [glen, gtm, htm]

/-- Witness for C1: a completed three-candidate run records exactly two
matches and one champion. -/
theorem worldcup_run_match_count_witness :
    (wcRun (gameStart sampleRoom [10, 20, 30] (fun _ => 0)) sampleScript).picksHistory.length
        = 2 ∧
    ∃ ch, (wcRun (gameStart sampleRoom [10, 20, 30] (fun _ => 0)) sampleScript).champion
        = some ch :=
  ⟨(worldcup_run_match_count sampleRoom [10, 20, 30] (fun _ => 0) sampleScript
      (by decide) (by decide)).2.1,
   (worldcup_run_match_count sampleRoom [10, 20, 30] (fun _ => 0) sampleScript
      (by decide) (by decide)).2.2.2⟩

theorem roundWinnerOf_tie (players : List (Nat × WPlayer))
    (h : aCountOf players = bCountOf players) : roundWinnerOf players = none := by
  simp [roundWinnerOf, h]

theorem recordAndCrown_history (r1 : Room) (e : PickRecord) (wcand : Nat) :
    (recordAndCrown r1 e wcand).picksHistory = r1.picksHistory ++ [e] := by
  obtain ⟨f1, -, -, -, -, -, -, -, -, -, -, -⟩ := advanceBracket_frame r1 wcand
  simp only [recordAndCrown]
  rcases hadv : advanceBracket r1 wcand with ⟨r', ch⟩
  rw [hadv] at f1
  simp only at f1
  cases ch <;> simp [f1]

theorem recordAndCrown_phase (r1 : Room) (e : PickRecord) (wcand : Nat) :
    (recordAndCrown r1 e wcand).phase = r1.phase := by
  obtain ⟨-, -, f3, -, -, -, -, -, -, -, -, -⟩ := advanceBracket_frame r1 wcand
  simp only [recordAndCrown]
  rcases hadv : advanceBracket r1 wcand with ⟨r', ch⟩
  rw [hadv] at f3
  simp only at f3
  cases ch <;> simp [f3]

theorem concludeState_tie_history (r : Room) (coin : Bool)
    (hrw : roundWinnerOf r.players = none) :
    (concludeState r coin).picksHistory = r.picksHistory ++
      [{ roundIndex := r.roundIndex,
         picks := picksOf r.players,
         aCount := aCountOf r.players,
         bCount := bCountOf r.players,
         roundWinner := none,
         winningCandidate := if coin then r.matchCands.1 else r.matchCands.2 }] := by
  simp only [concludeState, hrw]
  exact recordAndCrown_history _ _ _

theorem concludeState_phase (r : Room) (coin : Bool) :
    (concludeState r coin).phase = r.phase := by
  simp only [concludeState]
  cases hrw : roundWinnerOf r.players with
  | none => exact recordAndCrown_phase _ _ _
  | some w => cases w <;> exact recordAndCrown_phase _ _ _

/-- C2: on a tied A/B tally over the players who actually chose, a
reveal with revoting enabled and fewer than maxRevotes = 2 revotes used
does not advance the bracket — phase becomes `revoting`, the bracket
fields and pick history are untouched, every choice and the commit set
are cleared, the bounded revote counter is incremented and the round
timer is re-armed whenever timers are enabled; with revoting disabled or
the counter exhausted, the same tie instead concludes the match with the
winner drawn by the random coin between the two current candidates. -/
theorem doReveal_tie_behavior (r : Room) (coin : Bool)
    (hph : r.phase = WPhase.playing ∨ r.phase = WPhase.revoting)
    (htie : aCountOf r.players = bCountOf r.players) :
    (r.revoteEnabled = true → r.revoteCount < 2 →
      (doReveal r coin).phase = WPhase.revoting ∧
      (doReveal r coin).bracket = r.bracket ∧
      (doReveal r coin).nextBracket = r.nextBracket ∧
      (doReveal r coin).matchIndex = r.matchIndex ∧
      (doReveal r coin).picksHistory = r.picksHistory ∧
      (doReveal r coin).champion = r.champion ∧
      (∀ up ∈ (doReveal r coin).players, up.2.choice = none) ∧
      (doReveal r coin).committed = [] ∧
      (doReveal r coin).revoteCount = r.revoteCount + 1 ∧
      (r.timerEnabled = true → (doReveal r coin).roundTimerArmed = true)) ∧
    ((r.revoteEnabled = false ∨ 2 ≤ r.revoteCount) →
      (doReveal r coin).phase = WPhase.revealed ∧
      (doReveal r coin).picksHistory = r.picksHistory ++
        [{ roundIndex := r.roundIndex,
           picks := picksOf r.players,
           aCount := aCountOf r.players,
           bCount := bCountOf r.players,
           roundWinner := none,
           winningCandidate := if coin then r.matchCands.1 else r.matchCands.2 }]) := by
  have hrw : roundWinnerOf r.players = none := roundWinnerOf_tie r.players htie
  constructor
  · intro hen hcnt
    rw [doReveal_revote_eq r coin hph hrw hen hcnt]
    obtain ⟨s1, s2, s3, s4, s5, s6, s7⟩ := revoteFlip_spec r
    obtain ⟨t1, t2, t3, t4, t5, t6, t7, t8, t9, t10, t11⟩ := revoteState_spec (flipRevealed r)
    refine ⟨s1, s2, s3, s4, s5, s6, ?_, t9, t8, t11⟩
    intro up hup
    rw [t10] at hup
    simp only [List.mem_map] at hup
    obtain ⟨q, -, rfl⟩ := hup
    rfl
  · intro hdis
    have hcase : ¬(roundWinnerOf r.players = none ∧ r.revoteEnabled = true ∧
        r.revoteCount < 2) := by
      rcases hdis with h | h
      · rintro ⟨-, h2, -⟩
        rw [h] at h2
        exact absurd h2 (by simp)
      · rintro ⟨-, -, h3⟩
        omega
    rw [doReveal_conclude_eq r coin hph hcase]
    exact ⟨(concludeState_phase _ _).trans rfl,
      concludeState_tie_history (flipRevealed r) coin hrw⟩

/-- Witness for C2: in the concrete tied room a first tie revotes, and
with the budget exhausted the tie concludes the match. -/
theorem doReveal_tie_behavior_witness :
    (doReveal tieRoom true).phase = WPhase.revoting ∧
    (doReveal tieRoomExhausted true).phase = WPhase.revealed :=
  ⟨((doReveal_tie_behavior tieRoom true (Or.inl rfl) (by decide)).1 rfl (by decide)).1,
   ((doReveal_tie_behavior tieRoomExhausted true (Or.inl rfl) (by decide)).2
      (Or.inr (by decide))).1⟩

theorem worldcupNext_bracket_frame (r : Room) :
    (worldcupNext r).bracket = r.bracket ∧
    (worldcupNext r).nextBracket = r.nextBracket ∧
    (worldcupNext r).matchIndex = r.matchIndex := by
  simp only [worldcupNext, nextMatch, startRoundTimer]
  split_ifs <;> simp

/-- C3 counterexample: on a fresh four-candidate bracket the very first
advanceBracket call grows bracket.length + nextBracket.length from 4 to
5 — the sum does not strictly decrease on each completed match. -/
theorem advanceBracket_sum_counterexample :
    ¬ ((advanceBracket advRoom 10).1.bracket.length +
         (advanceBracket advRoom 10).1.nextBracket.length <
       advRoom.bracket.length + advRoom.nextBracket.length) := by decide

/-- C3 amended: the live-contestant measure (bracket.length −
2·matchIndex) + nextBracket.length decreases by exactly one on every
advanceBracket call (on a well-formed mid-match bracket), and no other
bracket operation changes the bracket fields: the tie-revote branch of
doReveal and the worldcup:next advance both leave bracket, nextBracket
and matchIndex unchanged. The raw sum bracket.length +
nextBracket.length only shrinks at round rollovers. -/
theorem advanceBracket_live_measure (r : Room) (w : Nat) (coin : Bool)
    (hev : r.bracket.length % 2 = 0) (hmi : 2 * r.matchIndex + 2 ≤ r.bracket.length) :
    liveCount (advanceBracket r w).1 + 1 = liveCount r ∧
    ((r.phase = WPhase.playing ∨ r.phase = WPhase.revoting) →
      roundWinnerOf r.players = none → r.revoteEnabled = true → r.revoteCount < 2 →
      (doReveal r coin).bracket = r.bracket ∧
      (doReveal r coin).nextBracket = r.nextBracket ∧
      (doReveal r coin).matchIndex = r.matchIndex) ∧
    ((worldcupNext r).bracket = r.bracket ∧
      (worldcupNext r).nextBracket = r.nextBracket ∧
      (worldcupNext r).matchIndex = r.matchIndex) := by
  obtain ⟨l1, -, -⟩ := advanceBracket_liveCount r w hev hmi
  refine ⟨?_, ?_, worldcupNext_bracket_frame r⟩
  · rw [l1]
    simp only [liveCount]
    omega
  · intro hph hrw hen hcnt
    rw [doReveal_revote_eq r coin hph hrw hen hcnt]
    obtain ⟨-, s2, s3, s4, -, -, -⟩ := revoteFlip_spec r
    exact ⟨s2, s3, s4⟩

/-- Witness for C3 amended: the first match of the four-candidate room
takes the live measure from 4 to 3. -/
theorem advanceBracket_live_measure_witness :
    liveCount (advanceBracket advRoom 10).1 + 1 = liveCount advRoom :=
  (advanceBracket_live_measure advRoom 10 true (by decide) (by decide)).1

theorem doQuizReveal_noop (r : QuizRoom) (h : r.quiz.phase ≠ QPhase.answering) :
    doQuizReveal r = r := by
  simp only [doQuizReveal, if_pos h]

theorem doQuizReveal_phase (r : QuizRoom) (h : r.quiz.phase = QPhase.answering) :
    (doQuizReveal r).quiz.phase = QPhase.reveal := by
  simp only [doQuizReveal,
    if_neg (show ¬ r.quiz.phase ≠ QPhase.answering by simp [h])]

/-- C4: phase-transition functions guard on their expected phase and flip
it first, so a stale duplicate trigger is a no-op: doReveal leaves any
room not in `playing`/`revoting` unchanged, doQuizReveal leaves any quiz
not in `answering` unchanged, doQuizReveal is idempotent, and once a
reveal has moved a room to `revealed` a second doReveal call is the
identity — hence "all committed/submitted" and "timer expired" can never
both execute the same reveal. -/
theorem phase_guard_noop (r : Room) (coin coin' : Bool) (qr : QuizRoom) :
    (¬(r.phase = WPhase.playing ∨ r.phase = WPhase.revoting) → doReveal r coin = r) ∧
    (qr.quiz.phase ≠ QPhase.answering → doQuizReveal qr = qr) ∧
    doQuizReveal (doQuizReveal qr) = doQuizReveal qr ∧
    ((doReveal r coin).phase = WPhase.revealed →
      doReveal (doReveal r coin) coin' = doReveal r coin) := by
  refine ⟨doReveal_noop r coin, doQuizReveal_noop qr, ?_, ?_⟩
  · by_cases h : qr.quiz.phase = QPhase.answering
    · exact doQuizReveal_noop _ (by rw [doQuizReveal_phase qr h]; decide)
    · rw [doQuizReveal_noop qr h]
      exact doQuizReveal_noop qr h
  · intro hrev
    exact doReveal_noop _ coin' (by rw [hrev]; decide)

/-- Witness for C4: a revealed worldcup room and a scoreboard-phase quiz
room are untouched by their reveal functions. -/
theorem phase_guard_noop_witness :
    doReveal revealedRoom true = revealedRoom ∧
    doQuizReveal idleQuizRoom = idleQuizRoom :=
  ⟨(phase_guard_noop revealedRoom true true idleQuizRoom).1 (by decide),
   (phase_guard_noop revealedRoom true true idleQuizRoom).2.1 (by decide)⟩

/-! ### Association-list and grading-loop lemmas for the quiz claims -/

theorem lookup_append_of_some {β : Type} (u : Nat) (l1 l2 : List (Nat × β)) (e : β)
    (h : List.lookup u l1 = some e) : List.lookup u (l1 ++ l2) = some e := by
  induction l1 with
  | nil => simp at h
  | cons p l1 ih =>
      by_cases hu : u = p.1
      · simp only [List.cons_append, List.lookup, beq_iff_eq.mpr hu] at h ⊢
        exact h
      · simp only [List.cons_append, List.lookup, beq_eq_false_iff_ne.mpr hu] at h ⊢
        exact ih h

theorem lookup_append_of_none {β : Type} (u : Nat) (l1 l2 : List (Nat × β))
    (h : List.lookup u l1 = none) : List.lookup u (l1 ++ l2) = List.lookup u l2 := by
  induction l1 with
  | nil => simp
  | cons p l1 ih =>
      by_cases hu : u = p.1
      · simp only [List.cons_append, List.lookup, beq_iff_eq.mpr hu] at h ⊢
        exact absurd h (by simp)
      · simp only [List.cons_append, List.lookup, beq_eq_false_iff_ne.mpr hu] at h ⊢
        exact ih h

theorem fillAbsent_lookup_some (ps : List (Nat × String)) (ans : List (Nat × AnswerEntry))
    (u : Nat) (e : AnswerEntry) (h : List.lookup u ans = some e) :
    List.lookup u (fillAbsent ps ans) = some e := by
  induction ps generalizing ans with
  | nil => exact h
  | cons p ps ih =>
      simp only [fillAbsent, List.foldl_cons]
      split_ifs with hp
      · exact ih ans h
      · exact ih _ (lookup_append_of_some u ans _ e h)

theorem fillAbsent_lookup_filled (ps : List (Nat × String)) (ans : List (Nat × AnswerEntry))
    (u : Nat) (hmem : u ∈ ps.map Prod.fst) (h : List.lookup u ans = none) :
    List.lookup u (fillAbsent ps ans) = some ⟨true, none, false⟩ := by
  induction ps generalizing ans with
  | nil => simp at hmem
  | cons p ps ih =>
      simp only [fillAbsent, List.foldl_cons]
      by_cases hu : u = p.1
      · rw [← hu, h]
        simp only [Option.isSome_none, Bool.false_eq_true, if_false]
        have hlook : List.lookup u (ans ++ [(u, ⟨true, none, false⟩)]) =
            some ⟨true, none, false⟩ := by
          rw [lookup_append_of_none u ans _ h]
          simp [List.lookup]
        exact fillAbsent_lookup_some ps _ u _ hlook
      · have hmem' : u ∈ ps.map Prod.fst := by
          simp only [List.map_cons, List.mem_cons] at hmem
          tauto
        split_ifs with hp
        · exact ih ans hmem' h
        · refine ih _ hmem' ?_
          rw [lookup_append_of_none u ans _ h]
          simp [List.lookup, beq_eq_false_iff_ne.mpr hu]

theorem setCorrect_lookup_proj (ans : List (Nat × AnswerEntry)) (k : Nat) (b : Bool)
    (u : Nat) :
    (List.lookup u (setCorrect ans k b)).map (fun e => (e.submitted, e.answer)) =
    (List.lookup u ans).map (fun e => (e.submitted, e.answer)) := by
  induction ans with
  | nil => rfl
  | cons p ans ih =>
      simp only [setCorrect, List.map_cons] at ih ⊢
      by_cases hk : p.1 = k
      · rw [if_pos hk]
        by_cases hu : u = p.1
        · simp only [List.lookup, beq_iff_eq.mpr hu]
          rfl
        · simp only [List.lookup, beq_eq_false_iff_ne.mpr hu]
          exact ih
      · rw [if_neg hk]
        by_cases hu : u = p.1
        · simp only [List.lookup, beq_iff_eq.mpr hu]
        · simp only [List.lookup, beq_eq_false_iff_ne.mpr hu]
          exact ih

theorem gradeFold_lookup_proj (question : Question) (ps : List (Nat × String))
    (st : GradeSt) (u : Nat) :
    (List.lookup u (ps.foldl (gradeStep question) st).answers).map
      (fun e => (e.submitted, e.answer)) =
    (List.lookup u st.answers).map (fun e => (e.submitted, e.answer)) := by
  induction ps generalizing st with
  | nil => rfl
  | cons p ps ih =>
      rw [List.foldl_cons, ih]
      exact setCorrect_lookup_proj st.answers p.1 _ u

theorem setCorrect_preserves_null (ans : List (Nat × AnswerEntry)) (k : Nat) (b : Bool)
    (u : Nat) (h : ∀ e, List.lookup u ans = some e → e.answer = none) :
    ∀ e, List.lookup u (setCorrect ans k b) = some e → e.answer = none := by
  intro e he
  have hp := setCorrect_lookup_proj ans k b u
  rw [he] at hp
  match hl : List.lookup u ans with
  | none => rw [hl] at hp; simp at hp
  | some e0 =>
      rw [hl] at hp
      simp only [Option.map_some', Option.some.injEq, Prod.mk.injEq] at hp
      rw [hp.2]
      exact h e0 hl

theorem gradeFold_score_of_null (question : Question) (ps : List (Nat × String))
    (st : GradeSt) (u : Nat)
    (h : ∀ e, List.lookup u st.answers = some e → e.answer = none) :
    (ps.foldl (gradeStep question) st).scores u = st.scores u := by
  induction ps generalizing st with
  | nil => rfl
  | cons p ps ih =>
      rw [List.foldl_cons]
      have hpres : ∀ e, List.lookup u (gradeStep question st p).answers = some e →
          e.answer = none := by
        simp only [gradeStep]
        exact setCorrect_preserves_null _ _ _ _ h
      rw [ih _ hpres]
      -- the step itself does not touch u's score: either it grades another
      -- user, or it grades u whose null answer can never be correct
      by_cases hu : p.1 = u
      · simp only [gradeStep]
        match hl : List.lookup p.1 st.answers with
        | none => simp
        | some e0 =>
            have hnull : e0.answer = none := h e0 (hu ▸ hl)
            simp [hnull]
      · have hu' : ¬u = p.1 := fun hh => hu hh.symm
        simp only [gradeStep]
        split_ifs <;> simp_all [Function.update, hu']

theorem gradeFold_results_mono (question : Question) (ps : List (Nat × String))
    (st : GradeSt) (x : QResult) (hx : x ∈ st.results) :
    x ∈ (ps.foldl (gradeStep question) st).results := by
  induction ps generalizing st with
  | nil => exact hx
  | cons p ps ih =>
      rw [List.foldl_cons]
      exact ih _ (by simp only [gradeStep]; exact List.mem_append_left _ hx)

theorem gradeFold_result_mem (question : Question) (ps : List (Nat × String))
    (st : GradeSt) (u : Nat) (nm : String)
    (hmem : (u, nm) ∈ ps)
    (h : (List.lookup u st.answers).map (fun e => (e.submitted, e.answer)) =
      some (true, none)) :
    (⟨u, nm, none, false, true⟩ : QResult) ∈ (ps.foldl (gradeStep question) st).results := by
  induction ps generalizing st with
  | nil => simp at hmem
  | cons p ps ih =>
      rw [List.foldl_cons]
      rcases List.mem_cons.mp hmem with heq | hmem'
      · -- this iteration appends exactly the auto-pass row for u
        obtain ⟨e0, hl, hproj⟩ : ∃ e0, List.lookup u st.answers = some e0 ∧
            (e0.submitted, e0.answer) = (true, none) := by
          match hl : List.lookup u st.answers with
          | none => rw [hl] at h; simp at h
          | some e0 =>
              rw [hl] at h
              exact ⟨e0, rfl, by simpa using h⟩
        apply gradeFold_results_mono
        have hsub : e0.submitted = true := (Prod.mk.injEq _ _ _ _ |>.mp hproj).1
        have hans : e0.answer = none := (Prod.mk.injEq _ _ _ _ |>.mp hproj).2
        simp only [gradeStep, ← heq, hl]
        simp [hsub, hans]
      · -- u's row is appended later; the projection invariant survives
        refine ih _ hmem' ?_
        simp only [gradeStep]
        rw [setCorrect_lookup_proj]
        exact h

theorem doQuizReveal_scores (r : QuizRoom) (h : r.quiz.phase = QPhase.answering) :
    (doQuizReveal r).quiz.scores =
      (r.players.foldl
        (gradeStep (r.quiz.questions.getD r.quiz.questionIndex defaultQuestion))
        ⟨r.quiz.answers, r.quiz.scores, []⟩).scores := by
  simp only [doQuizReveal, if_neg (show ¬ r.quiz.phase ≠ QPhase.answering by simp [h])]

theorem doQuizReveal_results (r : QuizRoom) (h : r.quiz.phase = QPhase.answering) :
    ((doQuizReveal r).quiz.lastReveal.map (fun p => p.results)) =
      some ((r.players.foldl
        (gradeStep (r.quiz.questions.getD r.quiz.questionIndex defaultQuestion))
        ⟨r.quiz.answers, r.quiz.scores, []⟩).results) := by
  simp only [doQuizReveal, if_neg (show ¬ r.quiz.phase ≠ QPhase.answering by simp [h]),
    Option.map_some']

theorem doQuizReveal_lookup_proj (r : QuizRoom) (u : Nat) :
    (List.lookup u (doQuizReveal r).quiz.answers).map (fun e => (e.submitted, e.answer)) =
    (List.lookup u r.quiz.answers).map (fun e => (e.submitted, e.answer)) := by
  by_cases h : r.quiz.phase = QPhase.answering
  · simp only [doQuizReveal, if_neg (show ¬ r.quiz.phase ≠ QPhase.answering by simp [h])]
    exact gradeFold_lookup_proj _ r.players _ u
  · rw [doQuizReveal_noop r h]

/-- C5 counterexample: when the shared quiz timer expires on the concrete
one-player room with no submission, the reveal row for the non-submitter
carries `submitted = true` (the auto-pass), not the unsubmitted marking
the claim states. -/
theorem quiz_timeout_marks_submitted :
    ((quizTimerFire timeoutQuizRoom).quiz.lastReveal.map
      (fun p => p.results.map (fun x => (x.userId, x.submitted, x.isCorrect, x.answer)))) =
      some [(1, true, false, none)] := by decide

/-- C5 amended: when the quiz answer timer expires, each roster member
without a stored answer does not gain any cumulative score for that
question, and the reveal results record them as incorrect with a null
answer — but flagged `submitted` (the auto-pass), not unsubmitted. -/
theorem quizTimerFire_facts (r : QuizRoom) (u : Nat) (nm : String)
    (hph : r.quiz.phase = QPhase.answering)
    (hmem : (u, nm) ∈ r.players)
    (hnone : List.lookup u r.quiz.answers = none) :
    (quizTimerFire r).quiz.scores u = r.quiz.scores u ∧
    ∃ payload, (quizTimerFire r).quiz.lastReveal = some payload ∧
      (⟨u, nm, none, false, true⟩ : QResult) ∈ payload.results := by
  have hfill : List.lookup u (fillAbsent r.players r.quiz.answers) =
      some ⟨true, none, false⟩ :=
    fillAbsent_lookup_filled r.players r.quiz.answers u
      (List.mem_map.mpr ⟨(u, nm), hmem, rfl⟩) hnone
  constructor
  · have hscores' : (quizTimerFire r).quiz.scores =
        (r.players.foldl
          (gradeStep (r.quiz.questions.getD r.quiz.questionIndex defaultQuestion))
          ⟨fillAbsent r.players r.quiz.answers, r.quiz.scores, []⟩).scores :=
      doQuizReveal_scores
        { r with
          quizTimerArmed := false
          roundEndsAt := none
          quiz := { r.quiz with answers := fillAbsent r.players r.quiz.answers } } hph
    rw [hscores']
    exact gradeFold_score_of_null _ r.players
      ⟨fillAbsent r.players r.quiz.answers, r.quiz.scores, []⟩ u
      (fun e he => by dsimp only at he; rw [hfill] at he; cases he; rfl)
  · have hres' : ((quizTimerFire r).quiz.lastReveal.map (fun p => p.results)) =
        some ((r.players.foldl
          (gradeStep (r.quiz.questions.getD r.quiz.questionIndex defaultQuestion))
          ⟨fillAbsent r.players r.quiz.answers, r.quiz.scores, []⟩).results) :=
      doQuizReveal_results
        { r with
          quizTimerArmed := false
          roundEndsAt := none
          quiz := { r.quiz with answers := fillAbsent r.players r.quiz.answers } } hph
    obtain ⟨payload, hp, hrows⟩ := Option.map_eq_some'.mp hres'
    refine ⟨payload, hp, ?_⟩
    have hrows' : payload.results =
        (r.players.foldl
          (gradeStep (r.quiz.questions.getD r.quiz.questionIndex defaultQuestion))
          ⟨fillAbsent r.players r.quiz.answers, r.quiz.scores, []⟩).results := hrows
    rw [hrows']
    exact gradeFold_result_mem _ r.players _ u nm hmem
      (by dsimp only; rw [hfill]; rfl)

/-- Witness for C5 amended at the concrete timed-out room. -/
theorem quizTimerFire_facts_witness :
    (quizTimerFire timeoutQuizRoom).quiz.scores 1 = timeoutQuizRoom.quiz.scores 1 ∧
    ∃ payload, (quizTimerFire timeoutQuizRoom).quiz.lastReveal = some payload ∧
      (⟨1, "p", none, false, true⟩ : QResult) ∈ payload.results :=
  quizTimerFire_facts timeoutQuizRoom 1 "p" rfl (by decide) rfl

/-- C6: in quiz phase `answering`, a roster member's first quiz:submit
is accepted and stored (the stored answer keeps its payload and
submitted flag even when the full-roster reveal fires immediately),
while every subsequent quiz:submit by the same user for the same
question returns ALREADY_SUBMITTED and returns the room unchanged — a
submitted answer is immutable for that question. -/
theorem quizSubmit_once (r : QuizRoom) (u : Nat) (a a' : Option QAnswer)
    (hph : r.quiz.phase = QPhase.answering)
    (hmem : (r.players.map (fun p => p.1)).contains u = true) :
    (List.lookup u r.quiz.answers = none →
      (quizSubmit r u a).1 = SubmitResult.ok ∧
      ∃ e, List.lookup u ((quizSubmit r u a).2.quiz.answers) = some e ∧
        e.submitted = true ∧ e.answer = a) ∧
    ((List.lookup u r.quiz.answers).isSome →
      quizSubmit r u a' = (SubmitResult.alreadySubmitted, r)) := by
  constructor
  · intro hnone
    have hguard1 : ¬ r.quiz.phase ≠ QPhase.answering := by simp [hph]
    have hguard2 : ¬ ¬ (r.players.map (fun p => p.1)).contains u = true := not_not_intro hmem
    simp only [quizSubmit, if_neg hguard1, if_neg hguard2, hnone, Option.isSome_none,
      Bool.false_eq_true, if_false]
    constructor
    · trivial
    · have hbase : List.lookup u (r.quiz.answers ++ [(u, ⟨true, a, false⟩)]) =
          some ⟨true, a, false⟩ := by
        rw [lookup_append_of_none u _ _ hnone]
        simp [List.lookup]
      split_ifs with hfull
      · have hproj := doQuizReveal_lookup_proj
          { r with quiz := { r.quiz with answers := r.quiz.answers ++ [(u, ⟨true, a, false⟩)] } } u
        rw [show List.lookup u ({ r with quiz := { r.quiz with
              answers := r.quiz.answers ++ [(u, ⟨true, a, false⟩)] } } : QuizRoom).quiz.answers =
            some ⟨true, a, false⟩ from hbase] at hproj
        simp only [Option.map_some'] at hproj
        match hl : List.lookup u (doQuizReveal { r with quiz := { r.quiz with
            answers := r.quiz.answers ++ [(u, ⟨true, a, false⟩)] } }).quiz.answers with
        | none => rw [hl] at hproj; simp at hproj
        | some e =>
            rw [hl] at hproj
            simp only [Option.map_some', Option.some.injEq] at hproj
            exact ⟨e, rfl, (Prod.mk.injEq _ _ _ _ |>.mp hproj).1,
              (Prod.mk.injEq _ _ _ _ |>.mp hproj).2⟩
      · exact ⟨⟨true, a, false⟩, hbase, rfl, rfl⟩
  · intro hsome
    have hguard1 : ¬ r.quiz.phase ≠ QPhase.answering := by simp [hph]
    have hguard2 : ¬ ¬ (r.players.map (fun p => p.1)).contains u = true := not_not_intro hmem
    simp only [quizSubmit, if_neg hguard1, if_neg hguard2, hsome, if_true]

/-- Witness for C6: in the concrete two-player room the first submit is
accepted and the repeat submit is rejected unchanged. -/
theorem quizSubmit_once_witness :
    (quizSubmit answeringQuizRoom 1 (some (QAnswer.num 1))).1 = SubmitResult.ok ∧
    quizSubmit (quizSubmit answeringQuizRoom 1 (some (QAnswer.num 1))).2 1
        (some (QAnswer.num 0)) =
      (SubmitResult.alreadySubmitted, (quizSubmit answeringQuizRoom 1 (some (QAnswer.num 1))).2) :=
  ⟨((quizSubmit_once answeringQuizRoom 1 (some (QAnswer.num 1)) none rfl (by decide)).1
      rfl).1,
   (quizSubmit_once (quizSubmit answeringQuizRoom 1 (some (QAnswer.num 1))).2 1
      none (some (QAnswer.num 0)) (by decide) (by decide)).2 (by decide)⟩

/-! ### Invite codes, idle teardown, roster cap, sanitization -/

theorem findSome?_exists {α β : Type} (f : α → Option β) (l : List α) (b : β)
    (h : l.findSome? f = some b) : ∃ a, a ∈ l ∧ f a = some b := by
  induction l with
  | nil => simp at h
  | cons x l ih =>
      rw [List.findSome?_cons] at h
      match hf : f x with
      | some y =>
          rw [hf] at h
          exact ⟨x, List.mem_cons_self x l, hf.trans h⟩
      | none =>
          rw [hf] at h
          obtain ⟨a, ha, hfa⟩ := ih h
          exact ⟨a, List.mem_cons_of_mem x ha, hfa⟩

/-- C7 counterexample: with the invite-code map already holding the
codes 000000 and 0000000 and a draw stream of zeros, every six-digit
attempt collides and the unchecked seven-digit fallback returns
0000000 — a code already mapped to another room. -/
theorem generateInviteCode_counterexample :
    generateInviteCode (fun _ => 0) [(6, 0), (7, 0)] ∈
      ([(6, 0), (7, 0)] : List InviteCode) := by decide

/-- C7 amended: every code the six-digit retry loop returns is fresh
(not yet in the invite-code map), and the seven-digit fallback is taken
only after all 50 six-digit draws collided — but the fallback draw
itself is never checked against the map, so its freshness is only
probabilistic. -/
theorem generateInviteCode_spec (rand : Nat → Nat) (used : List InviteCode) :
    ((generateInviteCode rand used).1 = 6 → generateInviteCode rand used ∉ used) ∧
    ((generateInviteCode rand used).1 = 7 →
      ∀ i < 50, ((6, rand i % 1000000) : InviteCode) ∈ used) := by
  unfold generateInviteCode
  cases hfs : (List.range 50).findSome? (fun attempt =>
      let code : InviteCode := (6, rand attempt % 1000000)
      if code ∈ used then none else some code) with
  | some c =>
      dsimp only
      obtain ⟨a, ha, hfa⟩ := findSome?_exists _ _ _ hfs
      simp only at hfa
      by_cases hmem : ((6, rand a % 1000000) : InviteCode) ∈ used
      · rw [if_pos hmem] at hfa
        exact absurd hfa (by simp)
      · rw [if_neg hmem] at hfa
        have hc : ((6, rand a % 1000000) : InviteCode) = c := by simpa using hfa
        refine ⟨fun _ => ?_, fun h7 => ?_⟩
        · rw [← hc]
          exact hmem
        · rw [← hc] at h7
          simp at h7
  | none =>
      dsimp only
      refine ⟨fun h6 => by simp at h6, fun _ i hi => ?_⟩
      have hnone := List.findSome?_eq_none_iff.mp hfs i (List.mem_range.mpr hi)
      simp only at hnone
      by_cases hmem : ((6, rand i % 1000000) : InviteCode) ∈ used
      · exact hmem
      · rw [if_neg hmem] at hnone
        exact absurd hnone (by simp)

/-- Witness for C7 amended: on an empty map the first six-digit draw is
returned and is fresh. -/
theorem generateInviteCode_spec_witness :
    generateInviteCode (fun _ => 5) [] ∉ ([] : List InviteCode) :=
  (generateInviteCode_spec (fun _ => 5) []).1 (by decide)

/-- C8: the sanitized question payload of the `show` phase contains no
answer data — it is literally invariant under replacing the question's
answer array — and for media-synchronized audio_youtube questions it
carries exactly the resolved video id plus the start/duration timing
offsets while the raw media url/type fields stay empty. -/
theorem safeQuestion_sanitized (q : Question) (i t : Nat) (ans : List QAnswer) :
    safeQuestion { q with answer := ans } i t = safeQuestion q i t ∧
    (q.qtype = QType.audio_youtube →
      (safeQuestion q i t).videoId = extractVideoId q.mediaUrl ∧
      (safeQuestion q i t).startSec = some q.startSec ∧
      (safeQuestion q i t).durationSec = some q.durationSec ∧
      (safeQuestion q i t).mediaType = some "youtube" ∧
      (safeQuestion q i t).media_url = none ∧
      (safeQuestion q i t).media_type = none) := by
  constructor
  · rfl
  · intro hq
    simp [safeQuestion, hq]

/-- Witness for C8: the concrete audio question's payload resolves the
video id and carries no raw media url. -/
theorem safeQuestion_sanitized_witness :
    (safeQuestion sampleAudioQuestion 0 3).videoId =
      extractVideoId sampleAudioQuestion.mediaUrl ∧
    (safeQuestion sampleAudioQuestion 0 3).media_url = none :=
  ⟨((safeQuestion_sanitized sampleAudioQuestion 0 3 []).2 rfl).1,
   ((safeQuestion_sanitized sampleAudioQuestion 0 3 []).2 rfl).2.2.2.2.1⟩

/-- C9: the idle-teardown callback re-checks emptiness at fire time and
never deletes a room that has a player or a pending disconnection, and
both scheduling and firing preserve the at-most-one-live-idle-timer
invariant — in particular, calling maybeCleanupRoom while a timer is
already held never creates a second one. -/
theorem idle_teardown_safe (r : IdleRoom) :
    (0 < r.playersCount ∨ 0 < r.disconnectedCount → (idleTimerFire r).2 = false) ∧
    (IdleInv r → IdleInv (maybeCleanupRoom r) ∧ IdleInv (idleTimerFire r).1) ∧
    (r.emptyRoomTimer = true →
      (maybeCleanupRoom r).liveIdleTimers ≤ r.liveIdleTimers) := by
  refine ⟨fun h => ?_, fun h => ⟨?_, ?_⟩, fun h => ?_⟩
  · simp only [idleTimerFire]
    split_ifs with hc
    · omega
    · rfl
  · simp only [maybeCleanupRoom, IdleInv] at h ⊢
    split_ifs at h ⊢ <;> simp_all
  · simp only [idleTimerFire, IdleInv] at h ⊢
    split_ifs at h ⊢ <;> simp_all
  · simp only [maybeCleanupRoom]
    split_ifs <;> simp_all

/-- Witness for C9: a room that regained a player is not deleted at fire
time, and re-scheduling on a room with a held timer leaves one live
timer. -/
theorem idle_teardown_safe_witness :
    (idleTimerFire regainedIdleRoom).2 = false ∧
    (maybeCleanupRoom emptyIdleRoom).liveIdleTimers ≤ emptyIdleRoom.liveIdleTimers :=
  ⟨(idle_teardown_safe regainedIdleRoom).1 (Or.inl (by decide)),
   (idle_teardown_safe emptyIdleRoom).2.2 rfl⟩

/-- C10: room:join enforces the MAX_PLAYERS = 4 cap only against users
not already in the roster: on a room at or above the cap a join by an
existing roster member succeeds, keeping the same roster ids and size
(only the display name may change), while a join by a new user returns
ROOM_FULL and leaves the roster unchanged. -/
theorem roomJoin_cap (r : Room) (u : Nat) (nick : Option String)
    (hfull : MAX_PLAYERS ≤ r.players.length) :
    (∀ p, List.lookup u r.players = some p →
      (roomJoin r u nick).1 = JoinResult.ok ∧
      (roomJoin r u nick).2.players.map Prod.fst = r.players.map Prod.fst ∧
      (roomJoin r u nick).2.players.length = r.players.length) ∧
    (List.lookup u r.players = none →
      (roomJoin r u nick).1 = JoinResult.roomFull ∧
      (roomJoin r u nick).2.players = r.players) := by
  constructor
  · intro p hp
    simp only [roomJoin, hp]
    refine ⟨by trivial, ?_, by simp⟩
    rw [List.map_map]
    refine List.map_congr_left (fun q hq => ?_)
    by_cases hqu : q.1 = u <;> simp [Function.comp, hqu]
  · intro hp
    simp only [roomJoin, hp, if_pos hfull]
    exact ⟨by trivial, by trivial⟩

/-- Witness for C10: on the concrete full room, the member with id 1
rejoins while the new user 5 is rejected with the roster intact. -/
theorem roomJoin_cap_witness :
    (roomJoin fullRoom 1 none).1 = JoinResult.ok ∧
    (roomJoin fullRoom 5 none).1 = JoinResult.roomFull ∧
    (roomJoin fullRoom 5 none).2.players = fullRoom.players :=
  ⟨((roomJoin_cap fullRoom 1 none (by decide)).1 ⟨"a", none⟩ (by decide)).1,
   ((roomJoin_cap fullRoom 5 none (by decide)).2 (by decide)).1,
   ((roomJoin_cap fullRoom 5 none (by decide)).2 (by decide)).2⟩

end Engine
